import Mathlib

set_option maxRecDepth 16384
set_option maxHeartbeats 1000000

/-!
Shallow embedding of `md2pdf.py`: the markdown block segmenter
(`parse_markdown`) and the inline transformer (`_format_inline`),
modelled over `List Char` with the regex substitutions of the source
implemented as fuelled left-to-right scanners with lazy (shortest-first)
closing-delimiter search, matching Python `re.sub` semantics on these
patterns.
-/

/-- The backtick character, code point 96. -/
def btChar : Char := Char.ofNat 96

/-- Python whitespace as recognised by `str.strip()` and the regex class
for spaces, restricted to ASCII. -/
def pyIsSpace (c : Char) : Bool :=
  decide (c = ' ' ∨ c = '\t' ∨ c = '\n' ∨ c = '\r' ∨ c = '\x0b' ∨ c = '\x0c')

/-- Remove trailing whitespace characters. -/
def dropTrailing (s : List Char) : List Char :=
  (s.reverse.dropWhile pyIsSpace).reverse

/-- Python `str.strip()`: remove leading and trailing whitespace. -/
def pyStrip (s : List Char) : List Char :=
  dropTrailing (s.dropWhile pyIsSpace)

/-- Whether the first argument is a prefix of the second
(Python `str.startswith`). -/
def startsWithL : List Char → List Char → Bool
  | [], _ => true
  | _ :: _, [] => false
  | p :: ps, c :: cs => if p = c then startsWithL ps cs else false

/-- A word character for the regex class used by the `_text_` italic rule,
restricted to ASCII alphanumerics and underscore. -/
def isWordChar (c : Char) : Bool := c.isAlphanum || c = '_'

/-- Escape the XML special characters, as the three sequential
`str.replace` calls at the top of `_format_inline` do. -/
def escapeChars : List Char → List Char
  | [] => []
  | c :: rest =>
    if c = '&' then '&' :: 'a' :: 'm' :: 'p' :: ';' :: escapeChars rest
    else if c = '<' then '&' :: 'l' :: 't' :: ';' :: escapeChars rest
    else if c = '>' then '&' :: 'g' :: 't' :: ';' :: escapeChars rest
    else c :: escapeChars rest

/-- Split at the first occurrence of `ch`: returns the characters before it
and the characters after it. -/
def splitCloseAux (ch : Char) : List Char → Option (List Char × List Char)
  | [] => none
  | c :: rest =>
    if c = ch then some ([], rest)
    else (splitCloseAux ch rest).map fun x => (c :: x.1, x.2)

/-- Lazy search for a single-character closing delimiter with at least one
content character before it: the first occurrence of `ch` at index ≥ 1. -/
def splitClose (ch : Char) : List Char → Option (List Char × List Char)
  | [] => none
  | c :: rest => (splitCloseAux ch rest).map fun x => (c :: x.1, x.2)

/-- Lazy search for a doubled closing delimiter `ch ch` (content may be
empty here; callers force at least one content character). -/
def splitClose2 (ch : Char) : List Char → Option (List Char × List Char)
  | [] => none
  | [_] => none
  | c1 :: c2 :: rest =>
    if c1 = ch ∧ c2 = ch then some ([], rest)
    else (splitClose2 ch (c2 :: rest)).map fun x => (c1 :: x.1, x.2)

/-- Decimal digit character. -/
def digitChar (d : Nat) : Char := Char.ofNat (48 + d)

/-- Decimal representation of a natural number, fuelled. -/
def natChars : Nat → Nat → List Char
  | 0, _ => []
  | fuel + 1, k =>
    if k < 10 then [digitChar k]
    else natChars fuel (k / 10) ++ [digitChar (k % 10)]

/-- The placeholder string `__CODE_PLACEHOLDER_{k}__` used by
`_format_inline` to protect code spans. -/
def placeholder (k : Nat) : List Char :=
  "__CODE_PLACEHOLDER_".data ++ natChars (k + 1) k ++ "__".data

/-- One pass of ``re.sub(r'`(.+?)`', save_code, text)``: each lazily
matched backtick span is replaced by a positional placeholder and its
content is collected, in order, into the returned side list. -/
def subCode : Nat → Nat → List Char → List Char × List (List Char)
  | 0, _, s => (s, [])
  | _ + 1, _, [] => ([], [])
  | fuel + 1, k, c :: rest =>
    if c = btChar then
      match splitClose btChar rest with
      | some (content, post) =>
        let r := subCode fuel (k + 1) post
        (placeholder k ++ r.1, content :: r.2)
      | none =>
        let r := subCode fuel k rest
        (c :: r.1, r.2)
    else
      let r := subCode fuel k rest
      (c :: r.1, r.2)

/-- One pass of a doubled-delimiter substitution such as
`re.sub(r'\*\*(.+?)\*\*', r'<b>\1</b>', text)`: lazy content of at least
one character between doubled delimiters, replaced by `lt ++ content ++ rt`. -/
def subDouble (ch : Char) (lt rt : List Char) : Nat → List Char → List Char
  | 0, s => s
  | _ + 1, [] => []
  | fuel + 1, c1 :: rest =>
    if c1 = ch then
      match rest with
      | c2 :: rrest =>
        if c2 = ch then
          match rrest with
          | r0 :: rs =>
            match splitClose2 ch rs with
            | some (pre, post) =>
              lt ++ (r0 :: pre) ++ rt ++ subDouble ch lt rt fuel post
            | none => c1 :: subDouble ch lt rt fuel rest
          | [] => c1 :: subDouble ch lt rt fuel rest
        else c1 :: subDouble ch lt rt fuel rest
      | [] => [c1]
    else c1 :: subDouble ch lt rt fuel rest

/-- One pass of a single-delimiter substitution such as
`re.sub(r'\*(.+?)\*', r'<i>\1</i>', text)`. -/
def subSingle (ch : Char) (lt rt : List Char) : Nat → List Char → List Char
  | 0, s => s
  | _ + 1, [] => []
  | fuel + 1, c :: rest =>
    if c = ch then
      match splitClose ch rest with
      | some (content, post) => lt ++ content ++ rt ++ subSingle ch lt rt fuel post
      | none => c :: subSingle ch lt rt fuel rest
    else c :: subSingle ch lt rt fuel rest

/-- Closing-delimiter search for the word-boundary italic rule
`\b_(.+?)_\b`: the first underscore followed by a non-word character or
the end of the string. -/
def undClose : List Char → Option (List Char × List Char)
  | [] => none
  | c :: rest =>
    if c = '_' ∧ (match rest with | [] => true | r :: _ => !isWordChar r) = true then
      some ([], rest)
    else (undClose rest).map fun x => (c :: x.1, x.2)

/-- One pass of `re.sub(r'\b_(.+?)_\b', r'<i>\1</i>', text)`; `prev` is
the character preceding the scan position in the original text, used to
decide the opening word boundary. -/
def subUnd (lt rt : List Char) : Nat → Option Char → List Char → List Char
  | 0, _, s => s
  | _ + 1, _, [] => []
  | fuel + 1, prev, c :: rest =>
    if c = '_' ∧ (match prev with | none => true | some p => !isWordChar p) = true then
      match (match rest with
             | r0 :: rs => (undClose rs).map fun x => (r0 :: x.1, x.2)
             | [] => none) with
      | some (content, post) =>
        lt ++ content ++ rt ++ subUnd lt rt fuel (some '_') post
      | none => c :: subUnd lt rt fuel (some c) rest
    else c :: subUnd lt rt fuel (some c) rest

/-- Search after an opening `[` for `](`, then lazily for a closing `)`,
backtracking over later `](` occurrences exactly as the lazy groups of
`\[(.+?)\]\((.+?)\)` do. Returns label, url and the remaining text. -/
def linkAux : List Char → Option (List Char × List Char × List Char)
  | [] => none
  | c :: rest =>
    if c = ']' then
      match rest with
      | '(' :: rest2 =>
        match splitClose ')' rest2 with
        | some (url, post) => some ([], url, post)
        | none => (linkAux rest).map fun x => (']' :: x.1, x.2.1, x.2.2)
      | _ => (linkAux rest).map fun x => (c :: x.1, x.2.1, x.2.2)
    else (linkAux rest).map fun x => (c :: x.1, x.2.1, x.2.2)

/-- Label/url split after an opening `[`, forcing a nonempty label. -/
def linkSplit : List Char → Option (List Char × List Char × List Char)
  | [] => none
  | r0 :: rs => (linkAux rs).map fun x => (r0 :: x.1, x.2.1, x.2.2)

/-- Replacement fragments used by the inline transformer. -/
def bOpen : List Char := "<b>".data

/-- Closing bold tag. -/
def bClose : List Char := "</b>".data

/-- Opening italic tag. -/
def iOpen : List Char := "<i>".data

/-- Closing italic tag. -/
def iClose : List Char := "</i>".data

/-- Opening link markup emitted for `[label](url)`. -/
def linkOpen : List Char := "<font color=\"blue\"><u>".data

/-- Closing link markup. -/
def linkClose : List Char := "</u></font>".data

/-- Opening code-span markup used when placeholders are restored. -/
def fontOpen : List Char :=
  "<font name=\"Courier\" color=\"#c7254e\" backColor=\"#f9f2f4\">".data

/-- Closing code-span markup. -/
def fontClose : List Char := "</font>".data

/-- One pass of `re.sub(r'\[(.+?)\]\((.+?)\)', ...)`: the url is dropped,
only the label is kept inside the link markup. -/
def subLink : Nat → List Char → List Char
  | 0, s => s
  | _ + 1, [] => []
  | fuel + 1, c :: rest =>
    if c = '[' then
      match linkSplit rest with
      | some (lab, _url, post) => linkOpen ++ lab ++ linkClose ++ subLink fuel post
      | none => c :: subLink fuel rest
    else c :: subLink fuel rest

/-- Python `str.replace`: replace every occurrence of `pat` in `s` by
`rep`, left to right, without rescanning replacements. -/
def replaceAll : Nat → List Char → List Char → List Char → List Char
  | 0, s, _, _ => s
  | _ + 1, [], _, _ => []
  | fuel + 1, c :: rest, pat, rep =>
    if startsWithL pat (c :: rest) then
      rep ++ replaceAll fuel ((c :: rest).drop pat.length) pat rep
    else c :: replaceAll fuel rest pat rep

/-- The restore loop at the end of `_format_inline`: each collected code
content is substituted back for its placeholder, in extraction order. -/
def restoreCode : List (List Char) → Nat → List Char → List Char
  | [], _, text => text
  | p :: ps, k, text =>
    restoreCode ps (k + 1)
      (replaceAll text.length text (placeholder k) (fontOpen ++ p ++ fontClose))

/-- The inline transformer `_format_inline` of `md2pdf.py`, over character
lists: escape, protect code spans, bold (`**`, `__`), italic (`*`,
word-boundary `_`), links, then placeholder restoration. -/
def fmtChars (s : List Char) : List Char :=
  let e := escapeChars s
  let cr := subCode e.length 0 e
  let t1 := subDouble '*' bOpen bClose cr.1.length cr.1
  let t2 := subDouble '_' bOpen bClose t1.length t1
  let t3 := subSingle '*' iOpen iClose t2.length t2
  let t4 := subUnd iOpen iClose t3.length none t3
  let t5 := subLink t4.length t4
  restoreCode cr.2 0 t5

/-- String-level wrapper for `_format_inline`. -/
def format_inline (text : String) : String := ⟨fmtChars text.data⟩

/-- Paragraph styles used by the segmenter. -/
inductive PStyle
  | heading1
  | heading2
  | heading3
  | customBody
deriving DecidableEq, Repr

/-- ReportLab flowables produced by `parse_markdown`, abstracted: a
`Paragraph` keeps its style and markup text, a `Preformatted` keeps the
joined code text, `Spacer` keeps its height in hundredths of an inch, and
a `ListFlowable` keeps the texts of its item paragraphs. -/
inductive Flowable
  | para (style : PStyle) (text : List Char)
  | preformatted (text : List Char)
  | spacer (h : Nat)
  | pageBreak
  | listFlowable (items : List (List Char))
deriving DecidableEq, Repr

/-- The mutable parser state of `parse_markdown`. -/
structure PState where
  inCode : Bool
  codeLines : List (List Char)
  inList : Bool
  listItems : List (List Char)
  out : List Flowable
deriving DecidableEq, Repr

/-- Fresh state at the start of every parse. -/
def initState : PState :=
  { inCode := false, codeLines := [], inList := false, listItems := [], out := [] }

/-- The fence marker `` ``` ``. -/
def fenceMark : List Char := [btChar, btChar, btChar]

/-- Raw-line marker for a level-1 heading. -/
def h1Mark : List Char := ['#', ' ']

/-- Raw-line marker for a level-2 heading. -/
def h2Mark : List Char := ['#', '#', ' ']

/-- Raw-line marker for a level-3 heading. -/
def h3Mark : List Char := ['#', '#', '#', ' ']

/-- `line.strip().startswith('```')`. -/
def fenceLine (t : List Char) : Bool := startsWithL fenceMark t

/-- `line.strip().startswith(('-', '*', '+'))`: only the first character
is inspected; no following whitespace is required. -/
def listStart : List Char → Bool
  | [] => false
  | c :: _ => decide (c = '-' ∨ c = '*' ∨ c = '+')

/-- `line.strip() in ('---', '***', '___')`. -/
def ruleLine (t : List Char) : Bool :=
  decide (t = "---".data ∨ t = "***".data ∨ t = "___".data)

/-- Whether `re.sub(r'^[\-\*\+]\s+', '', t)` fires: a single marker
character followed by at least one whitespace character. -/
def listMarkerWS : List Char → Bool
  | m :: r :: _ => decide (m = '-' ∨ m = '*' ∨ m = '+') && pyIsSpace r
  | _ => false

/-- `re.sub(r'^[\-\*\+]\s+', '', t)`: strip one leading marker and the
maximal following whitespace run, when present. -/
def stripListMarker (t : List Char) : List Char :=
  if listMarkerWS t then (t.drop 1).dropWhile pyIsSpace else t

/-- `'\n'.join(lines)`. -/
def joinLines : List (List Char) → List Char
  | [] => []
  | [l] => l
  | l :: ls => l ++ '\n' :: joinLines ls

/-- The `if in_list and list_items:` flush that precedes headings and
rules: emits the pending `ListFlowable` without a trailing spacer. -/
def flushList (st : PState) : PState :=
  if st.inList = true ∧ st.listItems ≠ [] then
    { st with out := st.out ++ [Flowable.listFlowable st.listItems],
              inList := false, listItems := [] }
  else st

/-- One iteration of the `while` loop of `parse_markdown`, with the
branches in source order: fence toggle, code accumulation, list item,
blank-terminating-list, headings, horizontal rule, paragraph, blank. -/
def stepLine (st : PState) (line : List Char) : PState :=
  let t := pyStrip line
  if fenceLine t then
    if st.inCode then
      let fl := [Flowable.preformatted (joinLines st.codeLines), Flowable.spacer 20]
      { st with out := st.out ++ fl, inCode := false, codeLines := [] }
    else { st with inCode := true, codeLines := [] }
  else if st.inCode then
    { st with codeLines := st.codeLines ++ [line] }
  else if listStart t then
    let st1 := if st.inList then st else { st with inList := true, listItems := [] }
    { st1 with listItems := st1.listItems ++ [fmtChars (stripListMarker t)] }
  else if st.inList = true ∧ t = [] then
    if st.listItems ≠ [] then
      let fl := [Flowable.listFlowable st.listItems, Flowable.spacer 10]
      { st with out := st.out ++ fl, inList := false, listItems := [] }
    else { st with inList := false, listItems := [] }
  else if startsWithL h1Mark line then
    let st1 := flushList st
    let fl := [Flowable.para PStyle.heading1 (fmtChars (pyStrip (line.drop 2))),
               Flowable.spacer 15]
    { st1 with out := st1.out ++ fl }
  else if startsWithL h2Mark line then
    let st1 := flushList st
    let fl := [Flowable.pageBreak,
               Flowable.para PStyle.heading2 (fmtChars (pyStrip (line.drop 3))),
               Flowable.spacer 12]
    { st1 with out := st1.out ++ fl }
  else if startsWithL h3Mark line then
    let st1 := flushList st
    let fl := [Flowable.para PStyle.heading3 (fmtChars (pyStrip (line.drop 4))),
               Flowable.spacer 10]
    { st1 with out := st1.out ++ fl }
  else if ruleLine t then
    let st1 := flushList st
    { st1 with out := st1.out ++ [Flowable.spacer 20] }
  else if t ≠ [] then
    let st1 := flushList st
    let fl := [Flowable.para PStyle.customBody (fmtChars t), Flowable.spacer 5]
    { st1 with out := st1.out ++ fl }
  else
    if st.inList = true ∧ st.listItems ≠ [] then
      let fl := [Flowable.listFlowable st.listItems, Flowable.spacer 10]
      { st with out := st.out ++ fl, inList := false, listItems := [] }
    else st

/-- End-of-input handling: only a pending list is flushed; accumulated
code-fence lines are not. -/
def finalize (st : PState) : List Flowable :=
  if st.inList = true ∧ st.listItems ≠ [] then
    st.out ++ [Flowable.listFlowable st.listItems]
  else st.out

/-- The block segmenter over a line sequence. -/
def parseLines (lines : List (List Char)) : List Flowable :=
  finalize (lines.foldl stepLine initState)

/-- `parse_markdown` of `md2pdf.py`: split on newlines and segment. -/
def parse_markdown (md_content : String) : List Flowable :=
  parseLines ((md_content.splitOn "\n").map String.data)

/-- The typed blocks of the specification, read off a flowable: heading
paragraphs become `Heading`, body paragraphs `Paragraph`, preformatted
text `CodeBlock`, list flowables `List`; spacers and page breaks carry no
block content. -/
inductive Block
  | heading (level : Nat) (text : List Char)
  | paragraph (text : List Char)
  | codeBlock (text : List Char)
  | listB (items : List (List Char))
deriving DecidableEq, Repr

/-- Block view of one flowable. -/
def blockOf : Flowable → Option Block
  | .para .heading1 t => some (.heading 1 t)
  | .para .heading2 t => some (.heading 2 t)
  | .para .heading3 t => some (.heading 3 t)
  | .para .customBody t => some (.paragraph t)
  | .preformatted t => some (.codeBlock t)
  | .listFlowable items => some (.listB items)
  | .spacer _ => none
  | .pageBreak => none

/-- Block view of a flowable sequence. -/
def toBlocks (fs : List Flowable) : List Block := fs.filterMap blockOf

/-- The segmenter, at the block level. -/
def segmentBlocks (lines : List (List Char)) : List Block :=
  toBlocks (parseLines lines)

/-- Absence of the inline marker characters. -/
def noMarkers (s : List Char) : Prop :=
  btChar ∉ s ∧ '*' ∉ s ∧ '_' ∉ s ∧ '[' ∉ s ∧ ']' ∉ s

instance (s : List Char) : Decidable (noMarkers s) := by
  unfold noMarkers; infer_instance

/-- Every ampersand begins one of the three emitted entities. -/
def ampEscaped : List Char → Bool
  | [] => true
  | c :: rest =>
    if c = '&' then
      (startsWithL ['a', 'm', 'p', ';'] rest || startsWithL ['l', 't', ';'] rest ||
        startsWithL ['g', 't', ';'] rest) && ampEscaped rest
    else ampEscaped rest

/-! ### Helper lemmas about the inline scanners -/

theorem subCode_id {s : List Char} (h : btChar ∉ s) :
    ∀ fuel k, subCode fuel k s = (s, []) := by
  induction s with
  | nil => intro fuel k; cases fuel <;> rfl
  | cons c rest ih =>
    intro fuel k
    cases fuel with
    | zero => rfl
    | succ f =>
      have hc : ¬(c = btChar) := fun e => h (e ▸ List.mem_cons_self c rest)
      simp [subCode, hc, ih (fun hm => h (List.mem_cons_of_mem _ hm)) f]

theorem subDouble_id {ch : Char} {lt rt : List Char} {s : List Char} (h : ch ∉ s) :
    ∀ fuel, subDouble ch lt rt fuel s = s := by
  induction s with
  | nil => intro fuel; cases fuel <;> rfl
  | cons c rest ih =>
    intro fuel
    cases fuel with
    | zero => rfl
    | succ f =>
      have hc : ¬(c = ch) := fun e => h (by rw [← e]; exact List.mem_cons_self c rest)
      simp [subDouble, hc, ih (fun hm => h (List.mem_cons_of_mem _ hm)) f]

theorem subSingle_id {ch : Char} {lt rt : List Char} {s : List Char} (h : ch ∉ s) :
    ∀ fuel, subSingle ch lt rt fuel s = s := by
  induction s with
  | nil => intro fuel; cases fuel <;> rfl
  | cons c rest ih =>
    intro fuel
    cases fuel with
    | zero => rfl
    | succ f =>
      have hc : ¬(c = ch) := fun e => h (by rw [← e]; exact List.mem_cons_self c rest)
      simp [subSingle, hc, ih (fun hm => h (List.mem_cons_of_mem _ hm)) f]

theorem subUnd_id {lt rt : List Char} {s : List Char} (h : '_' ∉ s) :
    ∀ fuel prev, subUnd lt rt fuel prev s = s := by
  induction s with
  | nil => intro fuel prev; cases fuel <;> rfl
  | cons c rest ih =>
    intro fuel prev
    cases fuel with
    | zero => rfl
    | succ f =>
      have hc : ¬(c = '_') := fun e => h (e ▸ List.mem_cons_self c rest)
      simp [subUnd, hc, ih (fun hm => h (List.mem_cons_of_mem _ hm)) f]

theorem subLink_id {s : List Char} (h : '[' ∉ s) :
    ∀ fuel, subLink fuel s = s := by
  induction s with
  | nil => intro fuel; cases fuel <;> rfl
  | cons c rest ih =>
    intro fuel
    cases fuel with
    | zero => rfl
    | succ f =>
      have hc : ¬(c = '[') := fun e => h (e ▸ List.mem_cons_self c rest)
      simp [subLink, hc, ih (fun hm => h (List.mem_cons_of_mem _ hm)) f]

/-- Characters of the escaped text: either untouched original characters
(never one of the three specials) or characters of the inserted entities. -/
theorem mem_escapeChars {c : Char} : ∀ {s : List Char}, c ∈ escapeChars s →
    (c ∈ s ∧ c ≠ '&' ∧ c ≠ '<' ∧ c ≠ '>') ∨
      c ∈ ['&', 'a', 'm', 'p', ';', 'l', 't', 'g'] := by
  intro s
  induction s with
  | nil => intro h; simp [escapeChars] at h
  | cons d rest ih =>
    intro h
    by_cases h1 : d = '&'
    · subst h1
      simp [escapeChars, List.mem_cons] at h
      rcases h with h | h | h | h | h | h
      · right; simp [h]
      · right; simp [h]
      · right; simp [h]
      · right; simp [h]
      · right; simp [h]
      · rcases ih h with ⟨hm, hx⟩ | hx
        · exact Or.inl ⟨List.mem_cons_of_mem _ hm, hx⟩
        · exact Or.inr hx
    · by_cases h2 : d = '<'
      · subst h2
        simp [escapeChars, List.mem_cons] at h
        rcases h with h | h | h | h | h
        · right; simp [h]
        · right; simp [h]
        · right; simp [h]
        · right; simp [h]
        · rcases ih h with ⟨hm, hx⟩ | hx
          · exact Or.inl ⟨List.mem_cons_of_mem _ hm, hx⟩
          · exact Or.inr hx
      · by_cases h3 : d = '>'
        · subst h3
          simp [escapeChars, List.mem_cons] at h
          rcases h with h | h | h | h | h
          · right; simp [h]
          · right; simp [h]
          · right; simp [h]
          · right; simp [h]
          · rcases ih h with ⟨hm, hx⟩ | hx
            · exact Or.inl ⟨List.mem_cons_of_mem _ hm, hx⟩
            · exact Or.inr hx
        · simp only [escapeChars, if_neg h1, if_neg h2, if_neg h3, List.mem_cons] at h
          rcases h with h | h
          · exact Or.inl ⟨by simp [h], h ▸ h1, h ▸ h2, h ▸ h3⟩
          · rcases ih h with ⟨hm, hx⟩ | hx
            · exact Or.inl ⟨List.mem_cons_of_mem _ hm, hx⟩
            · exact Or.inr hx

/-- A character outside the entity alphabet that is absent from the input
is absent from the escaped text. -/
theorem not_mem_escapeChars {c : Char} {s : List Char} (hc : c ∉ s)
    (hc2 : c ∉ ['&', 'a', 'm', 'p', ';', 'l', 't', 'g']) : c ∉ escapeChars s :=
  fun h => (mem_escapeChars h).elim (fun x => hc x.1) (fun x => hc2 x)

/-- The escaped text contains no raw lower-than sign. -/
theorem escapeChars_no_lt (s : List Char) : '<' ∉ escapeChars s := by
  intro h
  rcases mem_escapeChars h with ⟨_, _, h2, _⟩ | h2
  · exact h2 rfl
  · simp at h2

/-- The escaped text contains no raw greater-than sign. -/
theorem escapeChars_no_gt (s : List Char) : '>' ∉ escapeChars s := by
  intro h
  rcases mem_escapeChars h with ⟨_, _, _, h3⟩ | h2
  · exact h3 rfl
  · simp at h2

/-- Every ampersand of the escaped text begins an entity. -/
theorem ampEscaped_escapeChars (s : List Char) : ampEscaped (escapeChars s) = true := by
  induction s with
  | nil => rfl
  | cons c rest ih =>
    by_cases h1 : c = '&'
    · subst h1
      simp [escapeChars, ampEscaped, startsWithL, ih]
    · by_cases h2 : c = '<'
      · subst h2
        simp [escapeChars, ampEscaped, startsWithL, ih]
      · by_cases h3 : c = '>'
        · subst h3
          simp [escapeChars, ampEscaped, startsWithL, ih]
        · by_cases h4 : c = '&'
          · exact absurd h4 h1
          · simp only [escapeChars, if_neg h1, if_neg h2, if_neg h3]
            simp [ampEscaped, h1, ih]

/-- If the input has none of the inline marker characters, the escaped
text has none either. -/
theorem noMarkers_escapeChars {s : List Char} (h : noMarkers s) :
    noMarkers (escapeChars s) := by
  obtain ⟨h1, h2, h3, h4, h5⟩ := h
  exact ⟨not_mem_escapeChars h1 (by decide), not_mem_escapeChars h2 (by decide),
    not_mem_escapeChars h3 (by decide), not_mem_escapeChars h4 (by decide),
    not_mem_escapeChars h5 (by decide)⟩

/-- On marker-free input the whole inline pipeline is the escape stage. -/
theorem fmtChars_eq_escape {s : List Char} (h : noMarkers s) :
    fmtChars s = escapeChars s := by
  obtain ⟨hb, hs, hu, hl, _⟩ := noMarkers_escapeChars h
  simp only [fmtChars, subCode_id hb, subDouble_id hs, subDouble_id hu,
    subSingle_id hs, subUnd_id hu, subLink_id hl, restoreCode]

/-! ### Helper lemmas about stripping and the branch conditions -/

theorem dropWhile_append_all (p : Char → Bool) (l1 l2 : List Char)
    (h : ∀ c ∈ l1, p c = true) :
    (l1 ++ l2).dropWhile p = l2.dropWhile p := by
  induction l1 with
  | nil => simp
  | cons a l ih =>
    simp only [List.cons_append, List.dropWhile_cons, h a (by simp)]
    exact ih (fun c hc => h c (by simp [hc]))

theorem dropWhile_append_last (p : Char → Bool) (l : List Char) (c : Char)
    (hc : p c = false) :
    (l ++ [c]).dropWhile p = l.dropWhile p ++ [c] := by
  induction l with
  | nil => simp [List.dropWhile_cons, hc]
  | cons a l ih =>
    by_cases ha : p a <;> simp [List.dropWhile_cons, ha, ih]

theorem dropTrailing_cons (c : Char) (l : List Char) (hc : pyIsSpace c = false) :
    dropTrailing (c :: l) = c :: dropTrailing l := by
  unfold dropTrailing
  rw [List.reverse_cons, dropWhile_append_last _ _ _ hc, List.reverse_append]
  simp

theorem pyStrip_cons (c : Char) (l : List Char) (hc : pyIsSpace c = false) :
    pyStrip (c :: l) = c :: dropTrailing l := by
  unfold pyStrip
  rw [List.dropWhile_cons]
  simp [hc, dropTrailing_cons c l hc]

theorem pyStrip_ws_prefix (w : Char) (ws t : List Char) (hw : pyIsSpace w = true)
    (hws : ∀ c ∈ ws, pyIsSpace c = true) :
    pyStrip ((w :: ws) ++ t) = pyStrip t := by
  unfold pyStrip
  rw [dropWhile_append_all pyIsSpace (w :: ws) t ?_]
  intro c hc
  rcases List.mem_cons.mp hc with h | h
  · exact h ▸ hw
  · exact hws c h

theorem mem_dropTrailing {c : Char} {l : List Char} (h : c ∈ dropTrailing l) :
    c ∈ l := by
  unfold dropTrailing at h
  rw [List.mem_reverse] at h
  have := (List.dropWhile_sublist (p := pyIsSpace) (l := l.reverse)).subset h
  rwa [List.mem_reverse] at this

theorem mem_pyStrip {c : Char} {l : List Char} (h : c ∈ pyStrip l) : c ∈ l := by
  unfold pyStrip at h
  exact (List.dropWhile_sublist (p := pyIsSpace) (l := l)).subset (mem_dropTrailing h)

theorem fenceLine_cons (c : Char) (u : List Char) (h : ¬(btChar = c)) :
    fenceLine (c :: u) = false := by
  simp [fenceLine, fenceMark, startsWithL, h]

theorem ruleLine_ne (t : List Char) (h1 : t ≠ "---".data) (h2 : t ≠ "***".data)
    (h3 : t ≠ "___".data) : ruleLine t = false := by
  unfold ruleLine
  exact decide_eq_false (by push_neg; exact ⟨h1, h2, h3⟩)

theorem ruleLine_cons_false (c : Char) (u : List Char) (h1 : c ≠ '-') (h2 : c ≠ '*')
    (h3 : c ≠ '_') : ruleLine (c :: u) = false := by
  apply ruleLine_ne
  · rw [show "---".data = ['-', '-', '-'] from rfl]
    intro e; injection e with e1 _; exact h1 e1
  · rw [show "***".data = ['*', '*', '*'] from rfl]
    intro e; injection e with e1 _; exact h2 e1
  · rw [show "___".data = ['_', '_', '_'] from rfl]
    intro e; injection e with e1 _; exact h3 e1

/-! ### Helper lemmas about the segmenter state machine -/

theorem codeAccum (rest : List (List Char)) : ∀ st : PState, st.inCode = true →
    (∀ l ∈ rest, fenceLine (pyStrip l) = false) →
    rest.foldl stepLine st = { st with codeLines := st.codeLines ++ rest } := by
  induction rest with
  | nil => intro st _ _; simp
  | cons l ls ih =>
    intro st hc hf
    have h1 : stepLine st l = { st with codeLines := st.codeLines ++ [l] } := by
      simp [stepLine, hf l (by simp), hc]
    rw [List.foldl_cons, h1,
      ih { st with codeLines := st.codeLines ++ [l] } hc (fun x hx => hf x (by simp [hx]))]
    simp

theorem stepLine_para (st : PState) (line : List Char)
    (hc : st.inCode = false)
    (hf : fenceLine (pyStrip line) = false)
    (hl : listStart (pyStrip line) = false)
    (h1 : startsWithL h1Mark line = false)
    (h2 : startsWithL h2Mark line = false)
    (h3 : startsWithL h3Mark line = false)
    (hr : ruleLine (pyStrip line) = false)
    (hne : pyStrip line ≠ []) :
    stepLine st line = { flushList st with
      out := (flushList st).out ++
        [Flowable.para PStyle.customBody (fmtChars (pyStrip line)), Flowable.spacer 5] } := by
  simp [stepLine, hc, hf, hl, h1, h2, h3, hr, hne]

theorem stepLine_listItem (st : PState) (line : List Char)
    (hc : st.inCode = false) (hl : listStart (pyStrip line) = true) :
    stepLine st line =
      (let st1 := if st.inList then st else { st with inList := true, listItems := [] }
       { st1 with listItems := st1.listItems ++ [fmtChars (stripListMarker (pyStrip line))] }) := by
  have hf : fenceLine (pyStrip line) = false := by
    cases h : pyStrip line with
    | nil => rw [h] at hl; simp [listStart] at hl
    | cons c u =>
      rw [h] at hl
      have hm : c = '-' ∨ c = '*' ∨ c = '+' := by simpa [listStart] using hl
      apply fenceLine_cons
      rcases hm with e | e | e <;> (rw [e]; decide)
  simp [stepLine, hc, hf, hl]

/-! ### Claim theorems -/

/-- C1: on the line made of the two code spans `a` and `b`, the inline
transformer never produces code-span font tags: the placeholders inserted
to protect the code spans are themselves consumed by the `__text__` bold
rule, so the restore loop finds nothing and the output is two bold spans
wrapping the literal placeholder names.  This evaluates the code at the
failing input of the claim. -/
theorem C1_code_eval :
    format_inline "`a` and `b`" =
      "<b>CODE_PLACEHOLDER_0</b> and <b>CODE_PLACEHOLDER_1</b>" ∧
    format_inline "`a`" = "<b>CODE_PLACEHOLDER_0</b>" := by
  constructor <;> rfl

/-- C2: the single line made of three hyphens does not produce a rule: the
list-item check fires first (its trimmed content starts with a hyphen), so
the segmenter emits one single-item bullet list holding the literal text.
Only the three-underscore form reaches the horizontal-rule branch, which
emits the rule spacer.  This evaluates the code at the failing input. -/
theorem C2_code_eval :
    parseLines ["---".data] = [Flowable.listFlowable ["---".data]] ∧
    parseLines ["***".data] = [Flowable.listFlowable ["<i>*</i>".data]] ∧
    parseLines ["___".data] = [Flowable.spacer 20] := by
  refine ⟨?_, ?_, ?_⟩ <;> rfl

/-- C8: the bold stage runs before the italic stage, so a double-starred
word becomes one bold span, and two separate starred words become two
independent italic spans. -/
theorem C8_bold_before_italic :
    format_inline "**bold**" = "<b>bold</b>" ∧
    format_inline "*x* and *y*" = "<i>x</i> and <i>y</i>" := by
  constructor <;> rfl

/-- C3 counterexample: opening a fence and reaching end-of-input produces
no block at all — the accumulated line "code" is discarded, not emitted
as a CodeBlock. -/
theorem C3_counterexample :
    segmentBlocks ["```".data, "code".data] = [] := by rfl

/-- C3 amended: a fence that is opened and never closed loses its
accumulated lines at end-of-input: the final flush handles only pending
lists, so the parse of a fence opener followed by any non-fence lines is
empty. -/
theorem C3_amended (rest : List (List Char))
    (h : ∀ l ∈ rest, fenceLine (pyStrip l) = false) :
    parseLines ("```".data :: rest) = [] := by
  unfold parseLines
  rw [List.foldl_cons]
  have h0 : stepLine initState "```".data =
      { initState with inCode := true, codeLines := [] } := by rfl
  rw [h0, codeAccum rest _ rfl h]
  rfl

/-- C3 witness: the amended theorem at a concrete unterminated fence. -/
theorem C3_witness : parseLines ["```".data, "x".data] = [] :=
  C3_amended ["x".data] (by decide)

/-- C4 counterexample: a trimmed line starting with a marker character but
with no following whitespace is still consumed as a list item, keeping the
marker in the item text, while the claim would make it a paragraph. -/
theorem C4_counterexample :
    parseLines ["-x".data] = [Flowable.listFlowable ["-x".data]] ∧
    segmentBlocks ["-x".data] ≠ [Block.paragraph "-x".data] := by
  exact ⟨by rfl, by decide⟩

/-- C4 amended: outside code mode a line enters or continues list mode
exactly when its trimmed content starts with a marker character, whether
or not whitespace follows; the marker and trailing whitespace are
stripped only when the marker is followed by whitespace (otherwise the
trimmed line is kept whole as the item text), and every other non-blank
line matching no fence, heading or rule pattern becomes a paragraph of
the inline-transformed trimmed line. -/
theorem C4_amended :
    (∀ (st : PState) (line : List Char), st.inCode = false →
      listStart (pyStrip line) = true →
      stepLine st line =
        (let st1 := if st.inList then st else { st with inList := true, listItems := [] }
         { st1 with listItems := st1.listItems ++ [fmtChars (stripListMarker (pyStrip line))] })) ∧
    (∀ (st : PState) (line : List Char), st.inCode = false →
      fenceLine (pyStrip line) = false → listStart (pyStrip line) = false →
      startsWithL h1Mark line = false → startsWithL h2Mark line = false →
      startsWithL h3Mark line = false → ruleLine (pyStrip line) = false →
      pyStrip line ≠ [] →
      stepLine st line = { flushList st with
        out := (flushList st).out ++
          [Flowable.para PStyle.customBody (fmtChars (pyStrip line)), Flowable.spacer 5] }) :=
  ⟨stepLine_listItem, stepLine_para⟩

/-- C4 witness: the amended theorem applied to a list line with
whitespace after the marker and to a plain paragraph line. -/
theorem C4_witness :
    stepLine initState "- a".data =
      (let st1 := if initState.inList then initState
                  else { initState with inList := true, listItems := [] }
       { st1 with listItems :=
          st1.listItems ++ [fmtChars (stripListMarker (pyStrip "- a".data))] }) ∧
    stepLine initState "hello".data = { flushList initState with
      out := (flushList initState).out ++
        [Flowable.para PStyle.customBody (fmtChars (pyStrip "hello".data)), Flowable.spacer 5] } :=
  ⟨C4_amended.1 initState "- a".data rfl (by decide),
   C4_amended.2 initState "hello".data rfl (by decide) (by decide) (by decide)
     (by decide) (by decide) (by decide) (by decide)⟩

/-- C5 counterexample: raw marker characters do survive in the output
text: a lone star is unmatched and kept literally, and parentheses that
form no link are kept literally. -/
theorem C5_counterexample :
    format_inline "*" = "*" ∧ format_inline "(hello)" = "(hello)" ∧
    '*' ∈ (format_inline "*").data := by
  refine ⟨by rfl, by rfl, by decide⟩

/-- C5 amended: the escape stage leaves no raw lower-than or greater-than
sign and every ampersand it emits begins an entity, so no unescaped
structural character of the input survives into the markup; but marker
characters of unmatched constructs survive as literal text. -/
theorem C5_amended :
    (∀ s : List Char, '<' ∉ escapeChars s ∧ '>' ∉ escapeChars s ∧
      ampEscaped (escapeChars s) = true) ∧
    format_inline "a*b" = "a*b" :=
  ⟨fun s => ⟨escapeChars_no_lt s, escapeChars_no_gt s, ampEscaped_escapeChars s⟩,
   by rfl⟩

/-- C6: any line whose trimmed content starts with a triple backtick
toggles code mode; while code mode is active every line — blank lines,
list-looking lines, heading lines, rule lines — is appended verbatim, and
the closing fence emits exactly one CodeBlock with the accumulated lines;
in particular the three lines of a simple fenced block produce exactly
one CodeBlock containing "code". -/
theorem C6_fence_verbatim :
    (∀ mid : List (List Char), (∀ l ∈ mid, fenceLine (pyStrip l) = false) →
      segmentBlocks ("```".data :: mid ++ ["```".data]) =
        [Block.codeBlock (joinLines mid)]) ∧
    segmentBlocks ["```".data, "code".data, "```".data] =
      [Block.codeBlock "code".data] := by
  constructor
  · intro mid h
    unfold segmentBlocks parseLines
    have h0 : List.foldl stepLine initState ("```".data :: mid ++ ["```".data]) =
        List.foldl stepLine { initState with inCode := true, codeLines := [] }
          (mid ++ ["```".data]) := rfl
    rw [h0, List.foldl_append,
      codeAccum mid { initState with inCode := true, codeLines := [] } rfl h]
    have hfen : fenceLine (pyStrip "```".data) = true := by rfl
    simp [List.foldl, stepLine, hfen, finalize, toBlocks, blockOf, initState]
  · rfl

/-- C6 witness: a fenced block whose body looks like a list item, a blank
line, a heading and a rule is still emitted verbatim as one CodeBlock. -/
theorem C6_witness :
    segmentBlocks ("```".data ::
        ["- item".data, "".data, "# h".data, "---".data] ++ ["```".data]) =
      [Block.codeBlock (joinLines ["- item".data, "".data, "# h".data, "---".data])] :=
  C6_fence_verbatim.1 ["- item".data, "".data, "# h".data, "---".data] (by decide)

/-- C7 counterexample: a line whose trimmed content is exactly three
hyphens — a rule line in the claim's sense — does not terminate an open
list: the list-item check precedes the rule check, so it is absorbed as a
further item and no Rule is emitted. -/
theorem C7_counterexample :
    parseLines ["- a".data, "---".data] =
      [Flowable.listFlowable ["a".data, "---".data]] := by rfl

/-- C7 amended: an open list is terminated, emitting exactly one List
block with all accumulated items, at the first blank line, before a line
processed as a heading, before a three-underscore rule line (the only
rule form reachable with a pending list, since `---` and `***` are
absorbed as list items), and at end-of-input; the concrete example
`- a`, `- b`, blank yields one List of the two items and nothing more. -/
theorem C7_amended :
    segmentBlocks ["- a".data, "- b".data, []] = [Block.listB ["a".data, "b".data]] ∧
    (∀ st : PState, st.inCode = false → st.inList = true → st.listItems ≠ [] →
      stepLine st [] = { st with
        out := st.out ++ [Flowable.listFlowable st.listItems, Flowable.spacer 10],
        inList := false, listItems := [] }) ∧
    (∀ (st : PState) (t : List Char), st.inCode = false → st.inList = true →
      st.listItems ≠ [] →
      stepLine st ('#' :: ' ' :: t) = { st with
        out := st.out ++ [Flowable.listFlowable st.listItems,
          Flowable.para PStyle.heading1 (fmtChars (pyStrip t)), Flowable.spacer 15],
        inList := false, listItems := [] }) ∧
    (∀ st : PState, st.inCode = false → st.inList = true → st.listItems ≠ [] →
      stepLine st "___".data = { st with
        out := st.out ++ [Flowable.listFlowable st.listItems, Flowable.spacer 20],
        inList := false, listItems := [] }) ∧
    (∀ st : PState, st.inList = true → st.listItems ≠ [] →
      finalize st = st.out ++ [Flowable.listFlowable st.listItems]) := by
  refine ⟨by rfl, ?_, ?_, ?_, ?_⟩
  · intro st hc hin hitems
    simp [stepLine, hc, hin, hitems, show pyStrip ([] : List Char) = [] from rfl,
      show fenceLine [] = false from rfl, show listStart [] = false from rfl]
  · intro st t hc hin hitems
    have hps : pyStrip ('#' :: ' ' :: t) = '#' :: dropTrailing (' ' :: t) :=
      pyStrip_cons '#' (' ' :: t) (by decide)
    have hf : fenceLine (pyStrip ('#' :: ' ' :: t)) = false := by
      rw [hps]; exact fenceLine_cons '#' _ (by decide)
    have hl : listStart (pyStrip ('#' :: ' ' :: t)) = false := by
      rw [hps]; simp [listStart]
    have hne : pyStrip ('#' :: ' ' :: t) ≠ [] := by rw [hps]; simp
    have hh1 : startsWithL h1Mark ('#' :: ' ' :: t) = true := by
      simp [h1Mark, startsWithL]
    simp [stepLine, hc, hf, hl, hne, hh1, flushList, hin, hitems]
  · intro st hc hin hitems
    have hf : fenceLine (pyStrip "___".data) = false := by rfl
    have hl : listStart (pyStrip "___".data) = false := by rfl
    have hne : pyStrip "___".data ≠ [] := by decide
    have hh1 : startsWithL h1Mark "___".data = false := by rfl
    have hh2 : startsWithL h2Mark "___".data = false := by rfl
    have hh3 : startsWithL h3Mark "___".data = false := by rfl
    have hr : ruleLine (pyStrip "___".data) = true := by rfl
    simp [stepLine, hc, hf, hl, hne, hh1, hh2, hh3, hr, flushList, hin, hitems]
  · intro st hin hitems
    simp [finalize, hin, hitems]

/-- C7 witness: the amended theorem applied at a concrete pending-list
state, for the blank-line flush and the end-of-input flush. -/
theorem C7_witness :
    stepLine { inCode := false, codeLines := [], inList := true, listItems := ["a".data], out := [] } [] =
      { inCode := false, codeLines := [], inList := false, listItems := [], out := [Flowable.listFlowable ["a".data], Flowable.spacer 10] } ∧
    finalize { inCode := false, codeLines := [], inList := true, listItems := ["a".data], out := [] } =
      [Flowable.listFlowable ["a".data]] :=
  ⟨C7_amended.2.1 { inCode := false, codeLines := [], inList := true, listItems := ["a".data], out := [] } rfl rfl (by decide),
   C7_amended.2.2.2.2 { inCode := false, codeLines := [], inList := true, listItems := ["a".data], out := [] } rfl (by decide)⟩

/-- C9: for marker-free input the inline transformer is the identity
after entity escaping, and a single marker-free, non-blank line that
starts with no list marker and no raw heading prefix segments to exactly
one Paragraph holding the escaped trimmed text. -/
theorem C9_no_marker_identity :
    (∀ t : List Char, noMarkers t → fmtChars t = escapeChars t) ∧
    (∀ t : List Char, noMarkers t → pyStrip t ≠ [] →
      listStart (pyStrip t) = false →
      startsWithL h1Mark t = false → startsWithL h2Mark t = false →
      startsWithL h3Mark t = false →
      segmentBlocks [t] = [Block.paragraph (escapeChars (pyStrip t))]) := by
  constructor
  · exact fun t h => fmtChars_eq_escape h
  · intro t h hne hls hh1 hh2 hh3
    have hm : noMarkers (pyStrip t) :=
      ⟨fun x => h.1 (mem_pyStrip x), fun x => h.2.1 (mem_pyStrip x),
       fun x => h.2.2.1 (mem_pyStrip x), fun x => h.2.2.2.1 (mem_pyStrip x),
       fun x => h.2.2.2.2 (mem_pyStrip x)⟩
    obtain ⟨c, u, hcu⟩ : ∃ c u, pyStrip t = c :: u := by
      cases hps : pyStrip t with
      | nil => exact absurd hps hne
      | cons c u => exact ⟨c, u, rfl⟩
    have hcmem : c ∈ pyStrip t := by rw [hcu]; exact List.mem_cons_self c u
    have hneq : ¬(c = '-' ∨ c = '*' ∨ c = '+') := by
      rw [hcu] at hls; simpa [listStart] using hls
    have hf : fenceLine (pyStrip t) = false := by
      rw [hcu]
      refine fenceLine_cons c u ?_
      intro e
      rw [← e] at hcmem
      exact hm.1 hcmem
    have hr : ruleLine (pyStrip t) = false := by
      rw [hcu]
      refine ruleLine_cons_false c u ?_ ?_ ?_
      · exact fun e => hneq (Or.inl e)
      · exact fun e => hneq (Or.inr (Or.inl e))
      · intro e
        rw [e] at hcmem
        exact hm.2.2.1 hcmem
    have hstep := stepLine_para initState t rfl hf hls hh1 hh2 hh3 hr hne
    unfold segmentBlocks parseLines
    have hfold : List.foldl stepLine initState [t] = stepLine initState t := rfl
    rw [hfold, hstep]
    have hflush : flushList initState = initState := rfl
    rw [hflush]
    simp [initState, finalize, toBlocks, blockOf, fmtChars_eq_escape hm]

/-- C9 witness: the identity and the Paragraph shape at a concrete
marker-free line. -/
theorem C9_witness :
    fmtChars "hello world".data = escapeChars "hello world".data ∧
    segmentBlocks ["hello world".data] =
      [Block.paragraph (escapeChars (pyStrip "hello world".data))] :=
  ⟨C9_no_marker_identity.1 "hello world".data (by decide),
   C9_no_marker_identity.2 "hello world".data (by decide) (by decide) (by decide)
     (by decide) (by decide) (by decide)⟩

/-- C10: heading recognition tests the raw line while the other
recognisers test the trimmed line, so a line with leading whitespace
before a hash marker is emitted as a Paragraph carrying the literal hash,
never as a Heading. -/
theorem C10_indented_heading_is_paragraph :
    (∀ (w : Char) (ws t : List Char), pyIsSpace w = true →
      (∀ c ∈ ws, pyIsSpace c = true) →
      segmentBlocks [(w :: ws) ++ '#' :: t] =
        [Block.paragraph (fmtChars (pyStrip ('#' :: t)))]) ∧
    segmentBlocks ["  # Title".data] = [Block.paragraph "# Title".data] ∧
    '#' ∈ "# Title".data := by
  refine ⟨?_, by rfl, by decide⟩
  intro w ws t hw hws
  have hps : pyStrip ((w :: ws) ++ '#' :: t) = pyStrip ('#' :: t) :=
    pyStrip_ws_prefix w ws ('#' :: t) hw hws
  have hsh : pyStrip ('#' :: t) = '#' :: dropTrailing t := pyStrip_cons '#' t (by decide)
  have hf : fenceLine (pyStrip ((w :: ws) ++ '#' :: t)) = false := by
    rw [hps, hsh]; exact fenceLine_cons '#' _ (by decide)
  have hl : listStart (pyStrip ((w :: ws) ++ '#' :: t)) = false := by
    rw [hps, hsh]; simp [listStart]
  have hne : pyStrip ((w :: ws) ++ '#' :: t) ≠ [] := by rw [hps, hsh]; simp
  have hwne : ¬('#' = w) := by
    intro e; rw [← e] at hw; exact absurd hw (by decide)
  have hh1 : startsWithL h1Mark ((w :: ws) ++ '#' :: t) = false := by
    simp [h1Mark, List.cons_append, startsWithL, hwne]
  have hh2 : startsWithL h2Mark ((w :: ws) ++ '#' :: t) = false := by
    simp [h2Mark, List.cons_append, startsWithL, hwne]
  have hh3 : startsWithL h3Mark ((w :: ws) ++ '#' :: t) = false := by
    simp [h3Mark, List.cons_append, startsWithL, hwne]
  have hr : ruleLine (pyStrip ((w :: ws) ++ '#' :: t)) = false := by
    rw [hps, hsh]
    exact ruleLine_cons_false '#' _ (by decide) (by decide) (by decide)
  have hstep := stepLine_para initState ((w :: ws) ++ '#' :: t) rfl hf hl hh1 hh2 hh3 hr hne
  unfold segmentBlocks parseLines
  have hfold : List.foldl stepLine initState [(w :: ws) ++ '#' :: t] =
      stepLine initState ((w :: ws) ++ '#' :: t) := rfl
  rw [hfold, hstep, hps]
  have hflush : flushList initState = initState := rfl
  rw [hflush]
  simp [initState, finalize, toBlocks, blockOf]

/-- C10 witness: the general theorem applied at a concrete indented
heading-like line. -/
theorem C10_witness :
    segmentBlocks [(' ' :: []) ++ '#' :: " Hi".data] =
      [Block.paragraph (fmtChars (pyStrip ('#' :: " Hi".data)))] :=
  C10_indented_heading_is_paragraph.1 ' ' [] " Hi".data (by decide) (by simp)
